import Mathlib

/-!
Verification of the parser-combinator engine in src/plex-1.py.

The embedding is shallow: a Python parsing function of signature
(text, pos) -> (value_or_None, end_pos) becomes a Lean function
String -> Nat -> Option A × Nat, where none is the failure sentinel.
Each combinator below is translated line by line from the source.
-/

namespace Plex

/-- Embeds the Parser class (src/plex-1.py lines 4 to 12): an immutable wrapper
around a parsing function from input text and start offset to a result
(none is the failure sentinel) and an end offset. -/
structure Parser (α : Type) where
  func : String → Nat → Option α × Nat

variable {α β γ : Type}

/-- Invoking a Parser with an explicit position delegates to the wrapped
function with no extra bookkeeping (source line 8 to 9). -/
def Parser.call (p : Parser α) (text : String) (pos : Nat) : Option α × Nat :=
  p.func text pos

/-- Invoking a Parser without an explicit position: the source signature is
def call(self, text, pos=0), so the omitted position argument is 0. -/
def Parser.call1 (p : Parser α) (text : String) : Option α × Nat :=
  p.func text 0

/-- Embeds seq (source lines 16 to 24): runs parser1, then parser2 from the
offset parser1 returned; if either value is the failure sentinel the result
is failure at the original offset, otherwise the pair of values at the end
offset of parser2. -/
def seq (parser1 : Parser α) (parser2 : Parser β) : Parser (α × β) :=
  Parser.mk fun s idx =>
    let r1 := parser1.call s idx
    let r2 := parser2.call s r1.2
    match r1.1, r2.1 with
    | some x, some y => (some (x, y), r2.2)
    | _, _ => (none, idx)

/-- Embeds choice (source lines 28 to 35): returns the result of parser1 if
its value is not the failure sentinel, otherwise the result of running
parser2 at the original offset. -/
def choice (parser1 : Parser α) (parser2 : Parser α) : Parser α :=
  Parser.mk fun s idx =>
    let x := parser1.call s idx
    if x.1.isSome then x else parser2.call s idx

/-- Embeds compose (source lines 39 to 46): if parser1 fails, failure at the
original offset; otherwise the result of parser2 run from the end offset of
parser1, returned as-is, success or failure. -/
def compose (parser1 : Parser α) (parser2 : Parser β) : Parser β :=
  Parser.mk fun s idx =>
    let r1 := parser1.call s idx
    match r1.1 with
    | none => (none, idx)
    | some _ => parser2.call s r1.2

/-- Embeds between (source lines 50 to 64): runs the three parsers in
sequence, each from the end offset of the previous one; if any value is the
failure sentinel the result is failure at the original offset; on triple
success the value of parser2 paired with the end offset of parser2. -/
def between (parser1 : Parser α) (parser2 : Parser β) (parser3 : Parser γ) :
    Parser β :=
  Parser.mk fun s idx =>
    let r1 := parser1.call s idx
    match r1.1 with
    | none => (none, idx)
    | some _ =>
      let r2 := parser2.call s r1.2
      match r2.1 with
      | none => (none, idx)
      | some y =>
        let r3 := parser3.call s r2.2
        match r3.1 with
        | none => (none, idx)
        | some _ => (some y, r2.2)

/-- Embeds fmap (source lines 68 to 74). The source computes
x = parser(s, idx) and, when x[0] is not the failure sentinel, returns
(f(x), x[1]): f receives the whole result pair (value, end offset), not the
value alone, so here f has domain α × Nat. -/
def fmap (f : α × Nat → β) (parser : Parser α) : Parser β :=
  Parser.mk fun s idx =>
    let x := parser.call s idx
    match x.1 with
    | none => (none, idx)
    | some v => (some (f (v, x.2)), x.2)

/-- Atom of a regular-expression pattern: a literal character, the digit
class backslash-d, or the dot. -/
inductive Atom
  | char (c : Char)
  | digit
  | dot

/-- Whether an atom matches one character, following Python re semantics. -/
def Atom.matches : Atom → Char → Bool
  | .char c, a => a == c
  | .digit, a => a.isDigit
  | .dot, a => a != '\n'

/-- One quantified piece of a pattern: an atom taken once, zero or more
times (greedy), one or more times (greedy), or optionally. -/
inductive Piece
  | once (a : Atom)
  | star (a : Atom)
  | plus (a : Atom)
  | opt (a : Atom)

/-- Length of the maximal run of characters matching the atom at the front
of the input. -/
def leadRun (a : Atom) : List Char → Nat
  | [] => 0
  | c :: t => if a.matches c then leadRun a t + 1 else 0

/-- The possible remainders after one quantified piece consumes a front
segment of the input, in Python backtracking priority order (greedy
quantifiers try the longest consumption first). -/
def Piece.ends : Piece → List Char → List (List Char)
  | .once _, [] => []
  | .once a, c :: t => if a.matches c then [t] else []
  | .star a, s =>
    let r := leadRun a s
    (List.range (r + 1)).map (fun k => s.drop (r - k))
  | .plus a, s =>
    let r := leadRun a s
    (List.range r).map (fun k => s.drop (r - k))
  | .opt _, [] => [[]]
  | .opt a, c :: t => if a.matches c then [t, c :: t] else [c :: t]

/-- First defined element of a list of options, in order. -/
def firstSome : List (Option α) → Option α
  | [] => none
  | some a :: _ => some a
  | none :: rest => firstSome rest

/-- Backtracking matcher for a pattern, a sequence of quantified pieces,
anchored at the front of the input: returns the remainder after the first
match in priority order, or none when no alternative matches. Models the
behaviour of a compiled Python regular expression of this shape (the
repository uses the pattern backslash-d plus) under re.match anchoring. -/
def patMatch : List Piece → List Char → Option (List Char)
  | [], s => some s
  | p :: ps, s => firstSome ((Piece.ends p s).map (fun r => patMatch ps r))
termination_by ps _ => ps.length

/-- Embeds regex (source lines 78 to 87): matches the compiled pattern
anchored at the current offset; on a match, the matched text with the match
end offset, otherwise failure at the original offset (the else branch of
line 85 returns the offset the parser was invoked with). The Python re
module clamps a start position beyond the end of the string to the string
length before matching, so an out-of-range start with a nullable pattern
matches empty at the string length: the match end can be below the invoked
offset. The source returns the bare function, not a Parser-wrapped one. -/
def regex (pat : List Piece) : String → Nat → Option String × Nat :=
  fun s idx =>
    let pos := min idx s.length
    let tail := s.data.drop pos
    match patMatch pat tail with
    | some rem =>
      let k := tail.length - rem.length
      (some (String.mk (tail.take k)), pos + k)
    | none => (none, idx)

/-- Embeds pure (source lines 91 to 95, named pure there; renamed because
Lean reserves pure for the Pure class): always succeeds with the given
value at the unchanged offset. -/
def pureP (x : α) : Parser α :=
  Parser.mk fun _ idx => (some x, idx)

/-- Embeds bind (source lines 99 to 106): on failure of the parser, failure
at the original offset; on success with value x at offset idx2, the result
of the parser f(x) run at idx2, returned as-is. -/
def bind (parser : Parser α) (f : α → Parser β) : Parser β :=
  Parser.mk fun s idx =>
    let r := parser.call s idx
    match r.1 with
    | none => (none, idx)
    | some x => (f x).call s r.2

/-- The while-True loop of many (source lines 111 to 119), with an explicit
fuel bound on the number of successful iterations the loop is allowed to
take: none means the fuel ran out before the parser failed, that is, the
Python loop would still be running. When the parser fails the loop stops
and returns the accumulated results with the current offset. -/
def manyLoop (parser : Parser α) (s : String) :
    Nat → Nat → List α → Option (List α × Nat)
  | fuel, idx, result =>
    match (parser.call s idx).1, fuel with
    | none, _ => some (result, idx)
    | some _, 0 => none
    | some x, fuel' + 1 =>
      manyLoop parser s fuel' (parser.call s idx).2 (result ++ [x])

/-- Exactly n successful applications of the parser starting at offset i:
the list of values produced and the offset reached, or none if one of the
first n attempts fails. Used to state when the loop of many terminates. -/
def manySteps (parser : Parser α) (s : String) : Nat → Nat → Option (List α × Nat)
  | 0, i => some ([], i)
  | n + 1, i =>
    let r := parser.call s i
    match r.1 with
    | none => none
    | some v => (manySteps parser s n r.2).map (fun q => (v :: q.1, q.2))

/-- The loop of many runs forever from offset i: no amount of fuel makes it
return. -/
def ManyLoopDiverges (parser : Parser α) (s : String) (i : Nat) : Prop :=
  ∀ fuel acc, manyLoop parser s fuel i acc = none

/-- Embeds parse_a (source lines 122 to 125): matches the single character
a at the current position. -/
def parse_a (text : String) (pos : Nat) : Option String × Nat :=
  if pos < text.length ∧ text.data.get? pos = some 'a' then (some "a", pos + 1)
  else (none, pos)

/-- Embeds parse_true (source lines 128 to 131): matches the literal true
starting at the current position, via startswith. -/
def parse_true (text : String) (pos : Nat) : Option String × Nat :=
  if (text.data.drop pos).take 4 = "true".data then (some "true", pos + 4)
  else (none, pos)

/-- Embeds parse_false (source lines 134 to 137): matches the literal false
starting at the current position, via startswith. -/
def parse_false (text : String) (pos : Nat) : Option String × Nat :=
  if (text.data.drop pos).take 5 = "false".data then (some "false", pos + 5)
  else (none, pos)

/-- Source line 140: parse_letter_a = Parser(parse_a). -/
def parse_letter_a : Parser String := Parser.mk parse_a

/-- Source line 141 rebinds the name parse_true to Parser(parse_true); here
the wrapped parser gets the suffix P. -/
def parse_trueP : Parser String := Parser.mk parse_true

/-- The Parser wrapping of parse_false (the source passes the bare function
to between at line 162, where it is invoked exactly like a Parser). -/
def parse_falseP : Parser String := Parser.mk parse_false

/-- The failure contract of the specification: whenever the parser fails it
returns the offset it was invoked with. -/
def FailContract (p : Parser α) : Prop :=
  ∀ s i, (p.call s i).1 = none → (p.call s i).2 = i

/-- The success contract restricted to offsets: whenever the parser succeeds
the end offset is at least the start offset. -/
def SuccMono (p : Parser α) : Prop :=
  ∀ s i v j, p.call s i = (some v, j) → i ≤ j

/-- A parser that succeeds at every offset and always consumes one position:
every successful invocation strictly advances the offset, yet it keeps
succeeding past the end of the input. -/
def alwaysAdvance : Parser String :=
  Parser.mk fun _ i => (some "x", i + 1)

/-- Strict forward progress on success over a fixed input. -/
def StrictAdvance (p : Parser α) (s : String) : Prop :=
  ∀ i v j, p.call s i = (some v, j) → i < j

/-- Invoking a wrapped function is the function itself. -/
theorem call_mk (f : String → Nat → Option α × Nat) (s : String) (i : Nat) :
    (Parser.mk f).call s i = f s i := rfl

/-- parse_letter_a obeys the failure contract. -/
theorem parse_a_fail : FailContract parse_letter_a := by
  intro s i h
  simp only [parse_letter_a, call_mk, parse_a] at h ⊢
  by_cases hc : i < s.length ∧ s.data.get? i = some 'a'
  · rw [if_pos hc] at h
    exact absurd h (by simp)
  · rw [if_neg hc]

/-- parse_trueP obeys the failure contract. -/
theorem parse_true_fail : FailContract parse_trueP := by
  intro s i h
  simp only [parse_trueP, call_mk, parse_true] at h ⊢
  by_cases hc : (s.data.drop i).take 4 = "true".data
  · rw [if_pos hc] at h
    exact absurd h (by simp)
  · rw [if_neg hc]

/-- parse_falseP obeys the failure contract. -/
theorem parse_false_fail : FailContract parse_falseP := by
  intro s i h
  simp only [parse_falseP, call_mk, parse_false] at h ⊢
  by_cases hc : (s.data.drop i).take 5 = "false".data
  · rw [if_pos hc] at h
    exact absurd h (by simp)
  · rw [if_neg hc]

/-- parse_letter_a strictly advances on success and stays within the input. -/
theorem parse_a_progress (s : String) :
    ∀ i v j, parse_letter_a.call s i = (some v, j) → i < j ∧ j ≤ s.length := by
  intro i v j h
  simp only [parse_letter_a, call_mk, parse_a] at h
  split at h
  · rename_i hc
    obtain ⟨-, he⟩ := Prod.mk.injEq .. ▸ h
    omega
  · simp at h

/-- pureP is monotone on success. -/
theorem pure_mono (x : α) : SuccMono (pureP x) := by
  intro s i v j h
  simp only [pureP, call_mk] at h
  obtain ⟨-, he⟩ := Prod.mk.injEq .. ▸ h
  omega

/-- C3: pureP always succeeds with its value at the unchanged offset, for
every value, every input text including the empty one, and every offset. -/
theorem pure_consumes_nothing (x : α) (s : String) (i : Nat) :
    (pureP x).call s i = (some x, i) := rfl

/-- C10: invoking a wrapped Parser without an explicit start position
parses from offset 0: the call method declares pos=0 as the default, so
both invocation forms delegate to the wrapped function at position 0. -/
theorem call_default_position (p : Parser α) (s : String) :
    p.call1 s = p.call s 0 := rfl

/-- C7: choice returns the result of parser1 unmodified when parser1
succeeds, and otherwise returns exactly the result of running parser2 at
the original offset, be it success or failure. -/
theorem choice_contract (p1 p2 : Parser α) (s : String) (i : Nat) :
    ((p1.call s i).1.isSome = true → (choice p1 p2).call s i = p1.call s i)
    ∧ ((p1.call s i).1 = none → (choice p1 p2).call s i = p2.call s i) := by
  constructor <;> intro h <;> simp only [choice, call_mk] <;> rw [h] <;> simp

/-- Witness for C7: the demonstration at source line 152, first
alternative wins on input atrue. -/
theorem choice_contract_witness :
    (choice parse_letter_a parse_trueP).call "atrue" 0 = (some "a", 1) := by
  have h := (choice_contract parse_letter_a parse_trueP "atrue" 0).1 (by decide)
  rw [h]
  decide

/-- C1 amended: fmap applies f to the full (value, end offset) result pair
of the parser: if p succeeds at (s, i) with value v and end offset j, then
fmap f p returns Success of f applied to the pair (v, j), at end offset
j. -/
theorem fmap_applies_f_to_result_pair (f : α × Nat → β) (p : Parser α)
    (s : String) (i : Nat) (v : α) (j : Nat) (h : p.call s i = (some v, j)) :
    (fmap f p).call s i = (some (f (v, j)), j) := by
  simp only [fmap, call_mk, h]

/-- Witness for C1: the demonstration at source lines 168 to 171: fmap
with the string join of the result tuple over parse_letter_a on abc from
offset 0 yields a1 (the value a joined with the end offset 1). -/
theorem fmap_applies_f_to_result_pair_witness :
    (fmap (fun pr : String × Nat => pr.1 ++ toString pr.2) parse_letter_a).call
      "abc" 0 = (some "a1", 1) := by
  have h := fmap_applies_f_to_result_pair
    (fun pr : String × Nat => pr.1 ++ toString pr.2) parse_letter_a
    "abc" 0 "a" 1 (by decide)
  rw [h]
  decide

/-- C1 counterexample: one function, one parser, the same parsed value a,
but two different end offsets produce two different fmap outputs (a1
versus a2), so fmap does not apply f to the unwrapped parsed value: the
offset component of the raw result pair flows into f. -/
theorem fmap_pair_counterexample :
    parse_letter_a.call "ab" 0 = (some "a", 1)
    ∧ parse_letter_a.call "ba" 1 = (some "a", 2)
    ∧ (fmap (fun pr : String × Nat => pr.1 ++ toString pr.2)
        parse_letter_a).call "ab" 0 = (some "a1", 1)
    ∧ (fmap (fun pr : String × Nat => pr.1 ++ toString pr.2)
        parse_letter_a).call "ba" 1 = (some "a2", 2)
    ∧ ("a1" : String) ≠ "a2" :=
  ⟨by decide, by decide, by decide, by decide, by decide⟩

/-- C2 amended: seq and between always restore the original offset on
failure; compose restores it when its first sub-parser fails, but when the
first succeeds compose returns the result of the second sub-parser as-is,
so a failure of the second reports the end offset of the first sub-parse,
not the offset where the compose attempt began. -/
theorem backtracking_invariant_amended (p1 : Parser α) (p2 : Parser β)
    (p3 : Parser γ) (s : String) (i : Nat) :
    (((seq p1 p2).call s i).1 = none → ((seq p1 p2).call s i).2 = i)
    ∧ (((between p1 p2 p3).call s i).1 = none →
        ((between p1 p2 p3).call s i).2 = i)
    ∧ ((p1.call s i).1 = none → (compose p1 p2).call s i = (none, i))
    ∧ (∀ v j, p1.call s i = (some v, j) →
        (compose p1 p2).call s i = p2.call s j) := by
  refine ⟨?_, ?_, ?_, ?_⟩
  · intro h
    rcases hr1 : p1.call s i with ⟨x1, j1⟩
    rcases hr2 : p2.call s j1 with ⟨x2, j2⟩
    simp only [seq, call_mk, hr1, hr2] at h ⊢
    cases x1 <;> cases x2 <;> simp_all
  · intro h
    rcases hr1 : p1.call s i with ⟨x1, j1⟩
    rcases hr2 : p2.call s j1 with ⟨x2, j2⟩
    rcases hr3 : p3.call s j2 with ⟨x3, j3⟩
    simp only [between, call_mk, hr1, hr2, hr3] at h ⊢
    cases x1 <;> cases x2 <;> cases x3 <;> simp_all
  · intro h
    simp only [compose, call_mk, h]
  · intro v j h
    simp only [compose, call_mk, h]

/-- Witness for C2: seq of parse_letter_a and parse_trueP fails on input b
from offset 0 and reports the original offset 0. -/
theorem backtracking_invariant_amended_witness :
    ((seq parse_letter_a parse_trueP).call "b" 0).2 = 0 :=
  (backtracking_invariant_amended parse_letter_a parse_trueP parse_falseP
    "b" 0).1 (by decide)

/-- C2 counterexample: parse_letter_a and parse_trueP both obey the
failure contract, yet compose of the two, failing on input ab from offset
0 (the first sub-parser consumes a, then the second fails), returns offset
1, not the starting offset 0. -/
theorem compose_offset_leak_counterexample :
    FailContract parse_letter_a ∧ FailContract parse_trueP
    ∧ (compose parse_letter_a parse_trueP).call "ab" 0 = (none, 1)
    ∧ (1 : Nat) ≠ 0 :=
  ⟨parse_a_fail, parse_true_fail, by decide, by decide⟩

/-- C4: the full contract of seq for sub-parsers obeying the failure
contract: failure of parser1 gives failure at the original offset; success
of parser1 followed by failure of parser2 at the reached offset gives
failure at the original offset; double success gives the pair of values at
the end offset of parser2. -/
theorem seq_contract (p1 : Parser α) (p2 : Parser β)
    (_hf1 : FailContract p1) (_hf2 : FailContract p2) (s : String) (i : Nat) :
    ((p1.call s i).1 = none → (seq p1 p2).call s i = (none, i))
    ∧ (∀ v1 j, p1.call s i = (some v1, j) → (p2.call s j).1 = none →
        (seq p1 p2).call s i = (none, i))
    ∧ (∀ v1 j v2 k, p1.call s i = (some v1, j) → p2.call s j = (some v2, k) →
        (seq p1 p2).call s i = (some (v1, v2), k)) := by
  refine ⟨?_, ?_, ?_⟩
  · intro h
    rcases hr1 : p1.call s i with ⟨x1, j1⟩
    rcases hr2 : p2.call s j1 with ⟨x2, j2⟩
    rw [hr1] at h
    simp only at h
    subst h
    simp only [seq, call_mk, hr1, hr2]
  · intro v1 j h1 h2
    rcases hr2 : p2.call s j with ⟨x2, j2⟩
    rw [hr2] at h2
    simp only at h2
    subst h2
    simp only [seq, call_mk, h1, hr2]
  · intro v1 j v2 k h1 h2
    simp only [seq, call_mk, h1, h2]

/-- Witness for C4: the demonstration at source line 146, sequencing on
atrue from offset 0 yields the pair (a, true) at offset 5. -/
theorem seq_contract_witness :
    (seq parse_letter_a parse_trueP).call "atrue" 0 = (some ("a", "true"), 5) :=
  (seq_contract parse_letter_a parse_trueP parse_a_fail parse_true_fail
    "atrue" 0).2.2 "a" 1 "true" 5 (by decide) (by decide)

/-- C5: the contract of between: if any of the three parsers fails, each
run in order from the end offset of the previous one, between fails at the
original offset; on triple success it returns only the value of parser2,
paired with the offset reached after parser2, not the offset after
parser3. -/
theorem between_contract (p1 : Parser α) (p2 : Parser β) (p3 : Parser γ)
    (s : String) (i : Nat) :
    ((p1.call s i).1 = none → (between p1 p2 p3).call s i = (none, i))
    ∧ (∀ v1 j, p1.call s i = (some v1, j) → (p2.call s j).1 = none →
        (between p1 p2 p3).call s i = (none, i))
    ∧ (∀ v1 j v2 k, p1.call s i = (some v1, j) → p2.call s j = (some v2, k) →
        (p3.call s k).1 = none → (between p1 p2 p3).call s i = (none, i))
    ∧ (∀ v1 j v2 k v3 l, p1.call s i = (some v1, j) →
        p2.call s j = (some v2, k) → p3.call s k = (some v3, l) →
        (between p1 p2 p3).call s i = (some v2, k)) := by
  refine ⟨?_, ?_, ?_, ?_⟩
  · intro h
    rcases hr1 : p1.call s i with ⟨x1, j1⟩
    rw [hr1] at h
    simp only at h
    subst h
    simp only [between, call_mk, hr1]
  · intro v1 j h1 h2
    rcases hr2 : p2.call s j with ⟨x2, j2⟩
    rw [hr2] at h2
    simp only at h2
    subst h2
    simp only [between, call_mk, h1, hr2]
  · intro v1 j v2 k h1 h2 h3
    rcases hr3 : p3.call s k with ⟨x3, j3⟩
    rw [hr3] at h3
    simp only at h3
    subst h3
    simp only [between, call_mk, h1, h2, hr3]
  · intro v1 j v2 k v3 l h1 h2 h3
    simp only [between, call_mk, h1, h2, h3]

/-- Witness for C5: the demonstration at source line 164: between on
atruefalse from offset 0 yields true at offset 5 (after the middle parser,
not after the closer at offset 10). -/
theorem between_contract_witness :
    (between parse_letter_a parse_trueP parse_falseP).call "atruefalse" 0
      = (some "true", 5) :=
  (between_contract parse_letter_a parse_trueP parse_falseP
    "atruefalse" 0).2.2.2 "a" 1 "true" 5 "false" 10 (by decide) (by decide)
    (by decide)

/-- Auxiliary for C6: the loop of many, run with enough fuel and any
accumulator, appends exactly the values of the successful attempts and
stops at the offset reached just before the failing attempt. -/
theorem manyLoop_append (p : Parser α) (s : String) :
    ∀ n i fuel acc vs o, n ≤ fuel →
      manySteps p s n i = some (vs, o) → (p.call s o).1 = none →
      manyLoop p s fuel i acc = some (acc ++ vs, o) := by
  intro n
  induction n with
  | zero =>
    intro i fuel acc vs o _ hsteps hfail
    simp only [manySteps, Option.some.injEq, Prod.mk.injEq] at hsteps
    obtain ⟨rfl, rfl⟩ := hsteps
    rw [manyLoop.eq_def]
    simp [hfail]
  | succ n ih =>
    intro i fuel acc vs o hfuel hsteps hfail
    rcases hc : p.call s i with ⟨x, i2⟩
    simp only [manySteps, hc] at hsteps
    cases x with
    | none => simp at hsteps
    | some v =>
      rcases hq : manySteps p s n i2 with - | ⟨vs2, o2⟩
      · rw [hq] at hsteps
        simp at hsteps
      · rw [hq] at hsteps
        simp only [Option.map_some', Option.some.injEq, Prod.mk.injEq]
          at hsteps
        obtain ⟨rfl, rfl⟩ := hsteps
        cases fuel with
        | zero => omega
        | succ fuel2 =>
          rw [manyLoop.eq_def]
          simp only [hc]
          simpa using ih i2 fuel2 (acc ++ [v]) vs2 _ (by omega) hq hfail

/-- C6: if n attempts of the parser succeed in order starting from offset
i and the next attempt fails, then the loop of many, allowed at least n
iterations, stops and returns Success with the ordered list of the n
values (possibly the empty list for n equal 0) paired with the offset
reached just before the failing attempt. The loop returns the accumulated
list itself, so the value of many is never the failure sentinel. -/
theorem many_accumulates_until_failure (p : Parser α) (s : String)
    (n i fuel : Nat) (vs : List α) (o : Nat) (hfuel : n ≤ fuel)
    (hsteps : manySteps p s n i = some (vs, o))
    (hfail : (p.call s o).1 = none) :
    manyLoop p s fuel i [] = some (vs, o) := by
  simpa using manyLoop_append p s n i fuel [] vs o hfuel hsteps hfail

/-- Witness for C6: the demonstration at source line 194: many of
parse_letter_a on aaab from offset 0 yields the three values a at offset
3; the three successful steps and the failing fourth attempt are checked
by evaluation. -/
theorem many_accumulates_until_failure_witness :
    manyLoop parse_letter_a "aaab" 3 0 [] = some (["a", "a", "a"], 3) :=
  many_accumulates_until_failure parse_letter_a "aaab" 3 0 3 ["a", "a", "a"]
    3 (by decide) (by decide) (by decide)

/-- Auxiliary for C8: when every success of the parser strictly advances
the offset and lands within the input, fuel covering the remaining input
length makes the loop of many stop. -/
theorem manyLoop_total (p : Parser α) (s : String)
    (hp : ∀ i v j, p.call s i = (some v, j) → i < j ∧ j ≤ s.length) :
    ∀ fuel i acc, s.length - i ≤ fuel →
      (manyLoop p s fuel i acc).isSome = true := by
  intro fuel
  induction fuel with
  | zero =>
    intro i acc hle
    rcases hc : p.call s i with ⟨x, j⟩
    cases x with
    | none =>
      rw [manyLoop.eq_def]
      simp [hc]
    | some v =>
      have hb := hp i v j hc
      omega
  | succ fuel2 ih =>
    intro i acc hle
    rcases hc : p.call s i with ⟨x, j⟩
    cases x with
    | none =>
      rw [manyLoop.eq_def]
      simp [hc]
    | some v =>
      have hb := hp i v j hc
      rw [manyLoop.eq_def]
      simp only [hc]
      exact ih j (acc ++ [v]) (by omega)

/-- C8 amended: for every parser whose successful invocations strictly
advance the offset and end within the input (end offset at most the input
length), the loop of many stops, and fuel equal to the input length bounds
the number of iterations. The strict-advance condition alone is not
enough, as the counterexample shows, and without it termination fails
already on pure-style parsers. -/
theorem many_terminates_with_progress (p : Parser α) (s : String)
    (hp : ∀ i v j, p.call s i = (some v, j) → i < j ∧ j ≤ s.length)
    (i : Nat) :
    (manyLoop p s s.length i []).isSome = true :=
  manyLoop_total p s hp s.length i [] (by omega)

/-- Witness for C8: parse_letter_a strictly advances and stays in bounds,
so the loop of many on the two-character input aa stops within two
iterations from offset 0. -/
theorem many_terminates_with_progress_witness :
    (manyLoop parse_letter_a "aa" 2 0 []).isSome = true :=
  many_terminates_with_progress parse_letter_a "aa" (parse_a_progress "aa") 0

/-- Auxiliary for C8: the loop of many never stops on alwaysAdvance. -/
theorem alwaysAdvance_loop_none (s : String) :
    ∀ fuel i acc, manyLoop alwaysAdvance s fuel i acc = none := by
  intro fuel
  induction fuel with
  | zero =>
    intro i acc
    rw [manyLoop.eq_def]
    rfl
  | succ fuel2 ih =>
    intro i acc
    rw [manyLoop.eq_def]
    exact ih (i + 1) (acc ++ ["x"])

/-- C8 counterexample: alwaysAdvance strictly advances the offset on every
success, yet on the finite input ab the loop of many run from offset 0
stops for no amount of fuel: strict forward progress on success alone does
not make the loop of many terminate, the claim also needs successes to end
within the input. -/
theorem many_divergence_counterexample :
    StrictAdvance alwaysAdvance "ab" ∧ ManyLoopDiverges alwaysAdvance "ab" 0 := by
  constructor
  · intro i v j h
    simp only [alwaysAdvance, call_mk] at h
    obtain ⟨-, h2⟩ := Prod.mk.injEq .. ▸ h
    omega
  · intro fuel acc
    exact alwaysAdvance_loop_none "ab" fuel 0 acc

/-- seq preserves offset monotonicity on success. -/
theorem seq_mono {p1 : Parser α} {p2 : Parser β}
    (h1 : SuccMono p1) (h2 : SuccMono p2) : SuccMono (seq p1 p2) := by
  intro s i v j h
  rcases hr1 : p1.call s i with ⟨x1, j1⟩
  rcases hr2 : p2.call s j1 with ⟨x2, j2⟩
  simp only [seq, call_mk, hr1, hr2] at h
  cases x1 with
  | none => simp at h
  | some a =>
    cases x2 with
    | none => simp at h
    | some b =>
      obtain ⟨-, rfl⟩ := Prod.mk.injEq .. ▸ h
      exact le_trans (h1 s i a j1 hr1) (h2 s j1 b j2 hr2)

/-- choice preserves offset monotonicity on success. -/
theorem choice_mono {p1 p2 : Parser α}
    (h1 : SuccMono p1) (h2 : SuccMono p2) : SuccMono (choice p1 p2) := by
  intro s i v j h
  rcases hr1 : p1.call s i with ⟨x1, j1⟩
  simp only [choice, call_mk, hr1] at h
  cases x1 with
  | some a =>
    simp only [Option.isSome_some, if_true] at h
    obtain ⟨-, rfl⟩ := Prod.mk.injEq .. ▸ h
    exact h1 s i a j1 hr1
  | none =>
    simp only [Option.isSome_none, Bool.false_eq_true, if_false] at h
    exact h2 s i v j h

/-- compose preserves offset monotonicity on success. -/
theorem compose_mono {p1 : Parser α} {p2 : Parser β}
    (h1 : SuccMono p1) (h2 : SuccMono p2) : SuccMono (compose p1 p2) := by
  intro s i v j h
  rcases hr1 : p1.call s i with ⟨x1, j1⟩
  simp only [compose, call_mk, hr1] at h
  cases x1 with
  | none => simp at h
  | some a => exact le_trans (h1 s i a j1 hr1) (h2 s j1 v j h)

/-- between preserves offset monotonicity on success. -/
theorem between_mono {p1 : Parser α} {p2 : Parser β} {p3 : Parser γ}
    (h1 : SuccMono p1) (h2 : SuccMono p2) (_h3 : SuccMono p3) :
    SuccMono (between p1 p2 p3) := by
  intro s i v j h
  rcases hr1 : p1.call s i with ⟨x1, j1⟩
  rcases hr2 : p2.call s j1 with ⟨x2, j2⟩
  rcases hr3 : p3.call s j2 with ⟨x3, j3⟩
  simp only [between, call_mk, hr1, hr2, hr3] at h
  cases x1 with
  | none => simp at h
  | some a =>
    cases x2 with
    | none => simp at h
    | some b =>
      cases x3 with
      | none => simp at h
      | some c =>
        obtain ⟨-, rfl⟩ := Prod.mk.injEq .. ▸ h
        exact le_trans (h1 s i a j1 hr1) (h2 s j1 b j2 hr2)

/-- fmap preserves offset monotonicity on success. -/
theorem fmap_mono (f : α × Nat → β) {p : Parser α} (h1 : SuccMono p) :
    SuccMono (fmap f p) := by
  intro s i v j h
  rcases hr : p.call s i with ⟨x, j1⟩
  simp only [fmap, call_mk, hr] at h
  cases x with
  | none => simp at h
  | some a =>
    obtain ⟨-, rfl⟩ := Prod.mk.injEq .. ▸ h
    exact h1 s i a j1 hr

/-- The regex atomic parser is offset monotone on success for every start
offset within the input: there the clamped position equals the start
offset and the match end adds the consumed length to it. -/
theorem regex_mono_in_bounds (pat : List Piece) (s : String) (i : Nat)
    (hle : i ≤ s.length) :
    ∀ v j, (Parser.mk (regex pat)).call s i = (some v, j) → i ≤ j := by
  intro v j h
  simp only [call_mk, regex] at h
  rcases hm : patMatch pat (s.data.drop (min i s.length)) with - | rem
  · rw [hm] at h
    simp at h
  · rw [hm] at h
    obtain ⟨-, he⟩ := Prod.mk.injEq .. ▸ h
    omega

/-- bind preserves offset monotonicity on success. -/
theorem bind_mono {p : Parser α} {g : α → Parser β}
    (h1 : SuccMono p) (hg : ∀ a, SuccMono (g a)) : SuccMono (bind p g) := by
  intro s i v j h
  rcases hr : p.call s i with ⟨x, j1⟩
  simp only [bind, call_mk, hr] at h
  cases x with
  | none => simp at h
  | some a => exact le_trans (h1 s i a j1 hr) (hg a s j1 v j h)

/-- The loop of many preserves offset monotonicity: whenever it stops, the
offset it reports is at least the offset it started from. -/
theorem manyLoop_mono {p : Parser α} (h1 : SuccMono p) (s : String) :
    ∀ fuel i acc vs o, manyLoop p s fuel i acc = some (vs, o) → i ≤ o := by
  intro fuel
  induction fuel with
  | zero =>
    intro i acc vs o h
    rcases hc : p.call s i with ⟨x, j⟩
    rw [manyLoop.eq_def] at h
    simp only [hc] at h
    cases x with
    | none =>
      simp only [Option.some.injEq, Prod.mk.injEq] at h
      rcases h with ⟨-, h2⟩
      omega
    | some a => simp at h
  | succ fuel2 ih =>
    intro i acc vs o h
    rcases hc : p.call s i with ⟨x, j⟩
    rw [manyLoop.eq_def] at h
    simp only [hc] at h
    cases x with
    | none =>
      simp only [Option.some.injEq, Prod.mk.injEq] at h
      rcases h with ⟨-, h2⟩
      omega
    | some a =>
      exact le_trans (h1 s i a j hc) (ih j (acc ++ [a]) vs o h)

/-- C9 amended: offset monotonicity on success: when every component
parser satisfies the success contract (end offset at least start offset on
success), every parser built by the eight composite combinators seq,
choice, compose, between, fmap, pure, bind and many satisfies it too, and
the regex atom satisfies it at every start offset within the input. At a
start offset beyond the input length the regex atom can succeed with an
end offset below the start offset, because the re module clamps the match
position to the input length (see the counterexample). -/
theorem combinators_offset_monotone (p1 : Parser α) (p2 : Parser β)
    (p3 : Parser γ) (q : Parser α) (f : α × Nat → β) (g : α → Parser β)
    (pat : List Piece) (x : α)
    (h1 : SuccMono p1) (h2 : SuccMono p2) (h3 : SuccMono p3)
    (hq : SuccMono q) (hg : ∀ a, SuccMono (g a)) :
    SuccMono (seq p1 p2) ∧ SuccMono (choice p1 q) ∧ SuccMono (compose p1 p2)
    ∧ SuccMono (between p1 p2 p3) ∧ SuccMono (fmap f p1)
    ∧ (∀ s i, i ≤ s.length →
        ∀ v j, (Parser.mk (regex pat)).call s i = (some v, j) → i ≤ j)
    ∧ SuccMono (pureP x)
    ∧ SuccMono (bind p1 g)
    ∧ (∀ s i fuel vs o, manyLoop p1 s fuel i [] = some (vs, o) → i ≤ o) :=
  ⟨seq_mono h1 h2, choice_mono h1 hq, compose_mono h1 h2,
   between_mono h1 h2 h3, fmap_mono f h1,
   fun s i hle => regex_mono_in_bounds pat s i hle, pure_mono x,
   bind_mono h1 hg, fun s i fuel vs o h => manyLoop_mono h1 s fuel i [] vs o h⟩

/-- Witness for C9: the nine combinators applied to concrete component
parsers (pure parsers, which satisfy the success contract) and the pattern
backslash-d plus of source line 174. -/
theorem combinators_offset_monotone_witness :
    SuccMono (seq (pureP "a") (pureP "b"))
    ∧ SuccMono (choice (pureP "a") (pureP "d"))
    ∧ SuccMono (compose (pureP "a") (pureP "b"))
    ∧ SuccMono (between (pureP "a") (pureP "b") (pureP "c"))
    ∧ SuccMono (fmap (fun pr : String × Nat => pr.1) (pureP "a"))
    ∧ (∀ s i, i ≤ s.length → ∀ v j,
        (Parser.mk (regex [Piece.plus Atom.digit])).call s i = (some v, j) →
        i ≤ j)
    ∧ SuccMono (pureP "w")
    ∧ SuccMono (bind (pureP "a") (fun _ => pureP "e"))
    ∧ (∀ s i fuel vs o,
        manyLoop (pureP "a") s fuel i [] = some (vs, o) → i ≤ o) :=
  combinators_offset_monotone (pureP "a") (pureP "b") (pureP "c")
    (pureP "d") (fun pr => pr.1) (fun _ => pureP "e")
    [Piece.plus Atom.digit] "w" (pure_mono "a") (pure_mono "b")
    (pure_mono "c") (pure_mono "d") (fun _ => pure_mono "e")

/-- C9 counterexample: the regex atom with the nullable pattern a-star,
invoked on the three-character input abc at start offset 10, beyond the
input length: the re module clamps the match position to the input length
3, so the parser succeeds with the empty match at end offset 3, strictly
below the start offset 10 - the claimed end offset at least start offset
fails for regex on out-of-range starts. -/
theorem regex_clamp_counterexample :
    (Parser.mk (regex [Piece.star (Atom.char 'a')])).call "abc" 10
      = (some "", 3)
    ∧ ¬ (10 ≤ 3) := by
  constructor
  · simp [call_mk, regex, patMatch, Piece.ends, leadRun, firstSome]
    decide
  · decide

end Plex
